import Mathlib

/-!
Shallow embedding of `src/advanced-vector/vector.h`: a growable-array
container `Vector<T>` layered over a raw-buffer owner `RawMemory<T>`.

Modelling choices:
* A `RawMemory<T>` is modelled by its `capacity_` field.  The buffer
  pointer is not modelled separately because the source maintains
  `buffer_ == nullptr ↔ capacity_ == 0` at all times (`Allocate` returns
  `nullptr` exactly for `n == 0`, and move operations null the source
  while zeroing its capacity).
* A `Vector<T>` is modelled by its `data_` (a `RawMemory`), the list of
  constructed elements occupying slots `[0, ...)` of the buffer, and the
  `size_` field.  `size_` is kept as a separate field, not derived from
  the element list, because the source's move operations transfer the
  buffer while merely copying the scalar `size_` (`std::move` on a
  `size_t` copies it), so the two can disagree on a moved-from object.
* States reachable without undefined behaviour satisfy `WF`: the element
  list has length `size_` and `size_ ≤ capacity_`.  Operations whose C++
  code reads exactly `size_` elements out of the buffer are modelled with
  `List.take size_`, which coincides with the whole list on `WF` states.
* C++ exceptions thrown by element copy constructors are modelled by a
  failure oracle `copyFail : α → Bool` (the copy of value `a` throws iff
  `copyFail a = true`); a fallible operation returns a success flag
  together with the final state.  A statement in the C++ source mutates a
  member field only at its own program point, so the state returned on
  failure is the state built from exactly the member writes executed
  before the throwing statement.
-/

namespace AdvVector

/-- `RawMemory<T>` (vector.h lines 9-90): owns raw storage for
`capacity_` element slots; never constructs or destroys elements. -/
structure RawMemory where
  capacity : Nat
deriving DecidableEq, Repr

/-- `Vector<T>` (vector.h lines 92-348): `data_` plus `size_`, with the
constructed elements of the buffer modelled as `elems`. -/
structure Vector (α : Type) where
  data : RawMemory
  elems : List α
  size : Nat
deriving DecidableEq, Repr

namespace Vector

variable {α : Type}

/-- `Size()` (line 303). -/
def Size (v : Vector α) : Nat := v.size

/-- `Capacity()` (line 307): delegates to `data_.Capacity()`. -/
def Capacity (v : Vector α) : Nat := v.data.capacity

/-- `Vector()` (line 96): default construction, no allocation. -/
def new : Vector α := ⟨⟨0⟩, [], 0⟩

/-- `Vector(size_t size)` (lines 98-103): allocates `size` slots and
value-constructs `size` elements.  `dflt` is the value produced by
value-initialization of the element type (e.g. `0` for `int`). -/
def ofSize (dflt : α) (n : Nat) : Vector α := ⟨⟨n⟩, List.replicate n dflt, n⟩

/-- `Vector(const Vector&)` (lines 105-110), success path: allocates
`other.size_` slots and copies the first `other.size_` constructed
elements. -/
def copyConstruct (other : Vector α) : Vector α :=
  ⟨⟨other.size⟩, other.elems.take other.size, other.size⟩

/-- `Vector(const Vector&)` with throwing element copies: if some copied
value's copy constructor throws, `uninitialized_copy_n` cleans up and the
exception propagates — no vector object is produced. -/
def copyConstructF (copyFail : α → Bool) (other : Vector α) : Option (Vector α) :=
  if (other.elems.take other.size).any copyFail then none
  else some (copyConstruct other)

/-- `Vector(Vector&&)` (lines 112-114): returns (constructed object,
state of the source afterwards).  `data_(std::move(other.data_))` nulls
the source buffer and zeroes its capacity, but
`size_(std::move(other.size_))` merely copies the scalar, so the source
keeps its old `size_`. -/
def moveConstruct (other : Vector α) : Vector α × Vector α :=
  (⟨other.data, other.elems, other.size⟩, ⟨⟨0⟩, [], other.size⟩)

/-- `operator=(Vector&&)` (lines 140-146) for distinct objects
(`this != &rhs`): returns (new lhs, state of rhs afterwards).  As in
move construction, `rhs.size_` is copied, not zeroed. -/
def moveAssign (_lhs rhs : Vector α) : Vector α × Vector α :=
  (⟨rhs.data, rhs.elems, rhs.size⟩, ⟨⟨0⟩, [], rhs.size⟩)

/-- `Swap` (lines 148-151): exchanges `data_` (buffer and capacity,
hence the constructed elements living in it) and `size_`. -/
def Swap (a b : Vector α) : Vector α × Vector α :=
  (⟨b.data, b.elems, b.size⟩, ⟨a.data, a.elems, a.size⟩)

/-- `operator=(const Vector&)` (lines 116-139) for distinct objects,
with throwing element copy constructors modelled by `copyFail`
(element-wise `operator=` on already-constructed slots is modelled as
non-throwing).  Returns (success flag, resulting lhs state).
Three cases:
* `rhs.size_ > data_.Capacity()`: build `Vector rhs_copy(rhs)` and
  `Swap(rhs_copy)`; if the copy construction throws, no member of lhs
  has been written, so lhs is unchanged.
* `rhs.size_ >= size_`: assign the first `size_` slots, then
  `uninitialized_copy_n(rhs.data_.GetAddress(), rhs.size_ - size_,
  data_.GetAddress() + size_)` (line 127): the source pointer is the
  START of `rhs`'s buffer — not offset by `size_` — so the tail slots
  receive copies of `rhs`'s FIRST `rhs.size_ - size_` elements; a throw
  there happens after the assignments but before `size_ = rhs.size_`.
* `rhs.size_ < size_`: assign the first `rhs.size_` slots, destroy the
  trailing `size_ - rhs.size_` elements, set `size_ = rhs.size_`. -/
def copyAssignF (copyFail : α → Bool) (lhs rhs : Vector α) : Bool × Vector α :=
  if rhs.size > lhs.data.capacity then
    match copyConstructF copyFail rhs with
    | none => (false, lhs)
    | some c => (true, c)
  else if rhs.size ≥ lhs.size then
    if (rhs.elems.take (rhs.size - lhs.size)).any copyFail then
      (false, ⟨lhs.data, rhs.elems.take lhs.size, lhs.size⟩)
    else
      (true, ⟨lhs.data,
              rhs.elems.take lhs.size ++ rhs.elems.take (rhs.size - lhs.size),
              rhs.size⟩)
  else
    (true, ⟨lhs.data, rhs.elems.take rhs.size, rhs.size⟩)

/-- `Reserve` (lines 175-189), success path: no-op when
`new_capacity <= data_.Capacity()`; otherwise allocates `new_capacity`
slots, relocates the `size_` live elements (by move or copy — either way
the resulting values equal the originals), destroys the old elements and
swaps the buffers. -/
def Reserve (newCapacity : Nat) (v : Vector α) : Vector α :=
  if newCapacity ≤ v.data.capacity then v
  else ⟨⟨newCapacity⟩, v.elems.take v.size, v.size⟩

/-- `Resize` (lines 191-204), success path: `dflt` is the
value-initialized element value, as in `ofSize`. -/
def Resize (dflt : α) (newSize : Nat) (v : Vector α) : Vector α :=
  if newSize = v.size then v
  else if newSize > v.size then
    ⟨(Reserve newSize v).data,
     (Reserve newSize v).elems ++ List.replicate (newSize - v.size) dflt,
     newSize⟩
  else ⟨v.data, v.elems.take newSize, newSize⟩

/-- `NewExpendedMem` (lines 342-346): allocates the grown buffer,
`new_cap = size_ == 0 ? 1 : size_ * 2`. -/
def NewExpendedMem (v : Vector α) : RawMemory :=
  ⟨if v.size = 0 then 1 else v.size * 2⟩

/-- `PushBack` (lines 206-227), success path: at capacity, constructs
the new element into slot `size_` of `NewExpendedMem()` and then
`Realloc` relocates the `size_` live elements into slots `[0, size_)`
and swaps; otherwise constructs into slot `size_` of the current
buffer.  `++size_` in both branches. -/
def PushBack (v : Vector α) (value : α) : Vector α :=
  if v.size = v.data.capacity then
    ⟨NewExpendedMem v, v.elems.take v.size ++ [value], v.size + 1⟩
  else
    ⟨v.data, v.elems ++ [value], v.size + 1⟩

/-- Iterated append: the container obtained from the default-constructed
`Vector<int>` by `n` successive `PushBack` calls. -/
def pushBackIter : Nat → Vector Nat
  | 0 => Vector.new
  | n + 1 => PushBack (pushBackIter n) 0

/-- `EmplaceBack` (lines 234-249), success path: same state change as
`PushBack` (the element is constructed from the forwarded args, modelled
by its resulting value); additionally returns the offset of the emplaced
element, which is the old `size_` in both branches. -/
def EmplaceBack (v : Vector α) (value : α) : Vector α × Nat :=
  if v.size = v.data.capacity then
    (⟨NewExpendedMem v, v.elems.take v.size ++ [value], v.size + 1⟩, v.size)
  else
    (⟨v.data, v.elems ++ [value], v.size + 1⟩, v.size)

/-- `PopBack` (lines 229-232): destroys the element in slot
`size_ - 1` and decrements `size_`. -/
def PopBack (v : Vector α) : Vector α :=
  ⟨v.data, v.elems.take (v.size - 1), v.size - 1⟩

/-- `Emplace` (lines 251-286), success path, position given as the
offset `pos` of the iterator from `begin()`.  Returns (new state, offset
of the returned iterator).
* `pos == end()`: delegates to `EmplaceBack`.
* at capacity: constructs the new element at offset `pos` of the grown
  buffer, relocates slots `[0, pos)` before it and `[pos, size_)` after
  it, destroys the old elements, swaps; the returned iterator `temp`
  lies at offset `pos` of the new buffer.
* otherwise: builds the value in a temporary, move-constructs the last
  element into slot `size_`, shifts `[pos, size_ - 1)` right one slot,
  move-assigns the temporary into slot `pos`; net effect on the
  constructed elements is inserting the value at position `pos`. -/
def Emplace (v : Vector α) (pos : Nat) (value : α) : Vector α × Nat :=
  if pos = v.size then
    EmplaceBack v value
  else if v.size = v.data.capacity then
    (⟨NewExpendedMem v, v.elems.take pos ++ value :: v.elems.drop pos, v.size + 1⟩, pos)
  else
    (⟨v.data, v.elems.take pos ++ value :: v.elems.drop pos, v.size + 1⟩, pos)

/-- `Insert` (lines 288-293): delegates to `Emplace`. -/
def Insert (v : Vector α) (pos : Nat) (value : α) : Vector α × Nat :=
  Emplace v pos value

/-- `Erase` (lines 295-301): `std::move(iter + 1, end(), iter)` shifts
slots `[pos + 1, size_)` left one slot, the trailing slot is destroyed,
`size_` decremented; the returned iterator is `iter`, i.e. offset `pos`
of the (unchanged) buffer. -/
def Erase (v : Vector α) (pos : Nat) : Vector α × Nat :=
  (⟨v.data, v.elems.take pos ++ v.elems.drop (pos + 1), v.size - 1⟩, pos)

/-- Observable buffer events during a growth `PushBack`, used to state
the ordering guarantees of the reallocation protocol. -/
inductive Ev : Type
| allocNew (cap : Nat)
| constructNew
| copyOld (i : Nat)
| destroyOld
| swapBuffers
deriving DecidableEq, Repr

/-- `PushBack(const T& value)` (lines 206-216) instantiated at an
element type whose relocation uses copying (`Realloc` takes the
`uninitialized_copy_n` branch, lines 335-337), with throwing copy
constructors modelled by `copyFail`.  Returns (event trace, success
flag, final state).
* At capacity: `NewExpendedMem()` allocates, then
  `new(new_memory.GetAddress() + size_) T(value)` copy-constructs the
  new element — if that throws, no relocation has started and no member
  field has been written, so the vector is unchanged.  Then `Realloc`
  copies the live elements in order `0, 1, ...`; if copy `k` throws,
  `uninitialized_copy_n` destroys the copies already made in the new
  buffer and rethrows — `data_` and `size_` are still untouched.  Only
  after all copies succeed are the old elements destroyed and the
  buffers swapped, and `++size_` runs.
* Below capacity: the single copy into slot `size_` of the current
  buffer either throws (vector unchanged) or succeeds. -/
def PushBackCopyF (copyFail : α → Bool) (v : Vector α) (value : α) :
    List Ev × Bool × Vector α :=
  if v.size = v.data.capacity then
    if copyFail value then
      ([Ev.allocNew (NewExpendedMem v).capacity], false, v)
    else
      match (v.elems.take v.size).findIdx? copyFail with
      | some k =>
        (Ev.allocNew (NewExpendedMem v).capacity :: Ev.constructNew ::
           (List.range k).map Ev.copyOld,
         false, v)
      | none =>
        (Ev.allocNew (NewExpendedMem v).capacity :: Ev.constructNew ::
           ((List.range v.size).map Ev.copyOld ++ [Ev.destroyOld, Ev.swapBuffers]),
         true, ⟨NewExpendedMem v, v.elems.take v.size ++ [value], v.size + 1⟩)
  else
    if copyFail value then ([], false, v)
    else ([Ev.constructNew], true, ⟨v.data, v.elems ++ [value], v.size + 1⟩)

/-- `EmplaceBack(Args&&...)` (lines 234-249) instantiated at an element
type whose relocation uses copying, with the same exception model as
`PushBackCopyF`: `constructFails` says whether `T(std::forward<Args>(args)...)`
throws (for `EmplaceBack` the new element is built from the forwarded
arguments, not by a copy, so its failure is an independent oracle), and
`copyFail` governs the relocation copies of `Realloc`.  The control flow
and member writes are those of `PushBack`. -/
def EmplaceBackCopyF (constructFails : Bool) (copyFail : α → Bool)
    (v : Vector α) (value : α) : List Ev × Bool × Vector α :=
  if v.size = v.data.capacity then
    if constructFails then
      ([Ev.allocNew (NewExpendedMem v).capacity], false, v)
    else
      match (v.elems.take v.size).findIdx? copyFail with
      | some k =>
        (Ev.allocNew (NewExpendedMem v).capacity :: Ev.constructNew ::
           (List.range k).map Ev.copyOld,
         false, v)
      | none =>
        (Ev.allocNew (NewExpendedMem v).capacity :: Ev.constructNew ::
           ((List.range v.size).map Ev.copyOld ++ [Ev.destroyOld, Ev.swapBuffers]),
         true, ⟨NewExpendedMem v, v.elems.take v.size ++ [value], v.size + 1⟩)
  else
    if constructFails then ([], false, v)
    else ([Ev.constructNew], true, ⟨v.data, v.elems ++ [value], v.size + 1⟩)

/-- Well-formedness of a vector state: the constructed elements are
exactly slots `[0, size_)` and `size_ ≤ capacity_` (spec §3
invariants).  Every state reachable without undefined behaviour and
without moving-from satisfies this. -/
def WF (v : Vector α) : Prop :=
  v.elems.length = v.size ∧ v.size ≤ v.data.capacity

instance (v : Vector α) : Decidable (v.WF) := by
  unfold WF; infer_instance

end Vector

/-- The relocation-strategy condition written in `Reserve` (line 181):
`std::is_nothrow_move_constructible_v<T> || !std::is_copy_constructible_v<T>`.
`true` selects `uninitialized_move_n`, `false` selects
`uninitialized_copy_n`.  It is a `constexpr` function of the element
type's traits only, independent of the call and of the container
state. -/
def reserveRelocatesByMove (nothrowMove copyCtor : Bool) : Bool :=
  nothrowMove || !copyCtor

/-- The identical relocation-strategy condition written in `Realloc`
(line 332), the relocation step of growth in `PushBack`/`EmplaceBack`. -/
def reallocRelocatesByMove (nothrowMove copyCtor : Bool) : Bool :=
  nothrowMove || !copyCtor

/-- The identical relocation-strategy condition written in the growth
branch of `Emplace` (line 265). -/
def emplaceRelocatesByMove (nothrowMove copyCtor : Bool) : Bool :=
  nothrowMove || !copyCtor

/-- The relocation policy as the spec words it (§4.2, Relocation
policy): if the element type's move operation is guaranteed not to
fail, relocate by moving; otherwise, if the type supports copying,
relocate by copying; if it supports neither, moving is the only
remaining option. -/
def specRelocatesByMove (moveCannotFail copySupported : Bool) : Bool :=
  if moveCannotFail then true
  else if copySupported then false
  else true

open Vector

variable {α : Type}

/-- Inserting at offset `p` and erasing at offset `p` restores a list. -/
theorem take_append_cons_drop (l : List α) (x : α) :
    ∀ p, p ≤ l.length →
      (l.take p ++ x :: l.drop p).take p ++ (l.take p ++ x :: l.drop p).drop (p + 1) = l := by
  induction l with
  | nil =>
    intro p hp
    have hp0 : p = 0 := Nat.le_zero.mp hp
    subst hp0
    simp
  | cons a l ih =>
    intro p hp
    cases p with
    | zero => simp
    | succ p =>
      simp only [List.take_succ_cons, List.drop_succ_cons, List.cons_append]
      exact congrArg (List.cons a) (ih p (Nat.le_of_succ_le_succ hp))

/-- C2: whenever live elements are relocated from an old buffer to a new
one — `Reserve` with `n > capacity`, growth relocation in
`PushBack`/`EmplaceBack` (`Realloc`), and the growth branch of
`Emplace` — the transfer uses move construction iff the element type's
move constructor cannot fail or the type is not copy-constructible, and
copy construction in all other cases; all three call sites compute the
same function of the element type's traits alone, so the choice is per
element type, not per call. -/
theorem relocation_strategy_matches_spec :
    ∀ nothrowMove copyCtor : Bool,
      reserveRelocatesByMove nothrowMove copyCtor = specRelocatesByMove nothrowMove copyCtor ∧
      reallocRelocatesByMove nothrowMove copyCtor = specRelocatesByMove nothrowMove copyCtor ∧
      emplaceRelocatesByMove nothrowMove copyCtor = specRelocatesByMove nothrowMove copyCtor := by
  decide

/-- C3: an append that finds `size_ == Capacity()` allocates a new
buffer of capacity exactly `max 1 (size_ * 2)` (in `PushBack`,
`EmplaceBack`, and `Emplace` away from the end); an append below
capacity leaves the capacity unchanged; consequently the capacities
observed while appending elements one at a time to an empty container
are `0, 1, 2, 4, 4, 8, 8, 8, 8, ...`. -/
theorem growth_policy_doubles :
    (∀ (α : Type) (v : Vector α) (x : α), v.Size = v.Capacity →
       (PushBack v x).Capacity = max 1 (v.Size * 2)) ∧
    (∀ (α : Type) (v : Vector α) (x : α), v.Size ≠ v.Capacity →
       (PushBack v x).Capacity = v.Capacity) ∧
    (∀ (α : Type) (v : Vector α) (x : α), v.Size = v.Capacity →
       (EmplaceBack v x).1.Capacity = max 1 (v.Size * 2)) ∧
    (∀ (α : Type) (v : Vector α) (pos : Nat) (x : α), pos ≠ v.Size → v.Size = v.Capacity →
       (Emplace v pos x).1.Capacity = max 1 (v.Size * 2)) ∧
    (List.range 9).map (fun n => (pushBackIter n).Capacity) = [0, 1, 2, 4, 4, 8, 8, 8, 8] := by
  refine ⟨?_, ?_, ?_, ?_, by decide⟩
  · intro α v x h
    simp only [Size, Capacity] at h ⊢
    simp only [PushBack, if_pos h, NewExpendedMem, Capacity]
    rcases Nat.eq_zero_or_pos v.size with h0 | h0
    · simp [h0]
    · have hne : v.size ≠ 0 := Nat.pos_iff_ne_zero.mp h0
      simp only [if_neg hne]
      omega
  · intro α v x h
    simp only [Size, Capacity] at h ⊢
    simp only [PushBack, if_neg h]
  · intro α v x h
    simp only [Size, Capacity] at h ⊢
    simp only [EmplaceBack, if_pos h, NewExpendedMem, Capacity]
    rcases Nat.eq_zero_or_pos v.size with h0 | h0
    · simp [h0]
    · have hne : v.size ≠ 0 := Nat.pos_iff_ne_zero.mp h0
      simp only [if_neg hne]
      omega
  · intro α v pos x hpos h
    simp only [Size, Capacity] at hpos h ⊢
    simp only [Emplace, if_neg hpos, if_pos h, NewExpendedMem, Capacity]
    rcases Nat.eq_zero_or_pos v.size with h0 | h0
    · simp [h0]
    · have hne : v.size ≠ 0 := Nat.pos_iff_ne_zero.mp h0
      simp only [if_neg hne]
      omega

/-- Witness for C3: a full container of size 2 grows to capacity
`max 1 (2 * 2) = 4` on `PushBack`. -/
theorem growth_policy_doubles_witness :
    (PushBack (⟨⟨2⟩, [1, 2], 2⟩ : Vector Nat) 9).Capacity = max 1 (2 * 2) :=
  growth_policy_doubles.1 Nat ⟨⟨2⟩, [1, 2], 2⟩ 9 (by decide)

/-- C4 fails on the code: after move construction or move assignment the
source's buffer is gone (`Capacity() = 0`) but `size_(std::move(other.size_))`
only copies the scalar, so the source still reports its old nonzero
`Size()` instead of 0. -/
theorem moved_from_source_keeps_stale_size :
    ((moveConstruct (⟨⟨1⟩, [7], 1⟩ : Vector Nat)).2.Size = 1 ∧
     (moveConstruct (⟨⟨1⟩, [7], 1⟩ : Vector Nat)).2.Capacity = 0) ∧
    ((moveAssign (Vector.new : Vector Nat) ⟨⟨1⟩, [7], 1⟩).2.Size = 1 ∧
     (moveAssign (Vector.new : Vector Nat) ⟨⟨1⟩, [7], 1⟩).2.Capacity = 0) := by
  decide

/-- C5 fails on the code: move construction from a well-formed container
of size 1 leaves the source with `Size() = 1 > 0 = Capacity()`, breaking
the invariant `size ≤ capacity`. -/
theorem move_source_violates_invariant :
    WF (⟨⟨1⟩, [7], 1⟩ : Vector Nat) ∧
    ¬ WF (moveConstruct (⟨⟨1⟩, [7], 1⟩ : Vector Nat)).2 ∧
    ¬ (moveConstruct (⟨⟨1⟩, [7], 1⟩ : Vector Nat)).2.Size ≤
        (moveConstruct (⟨⟨1⟩, [7], 1⟩ : Vector Nat)).2.Capacity := by
  decide

/-- C6 fails on the code: in the extend case (`rhs.size_` fits and is
at least `size_`) the tail copy at line 127 reads from the START of
`rhs`'s buffer — `rhs.data_.GetAddress()` without `+ size_` — so the
newly used slots receive `rhs`'s first `rhs.size_ - size_` elements,
duplicating the prefix.  Assigning `[2, 3]` over `[1]` (capacity 4)
yields `[2, 2]` with size 2, not `[2, 3]`: the resulting elements do
not equal `rhs`'s elements in order, though the size does become
`rhs.Size()`. -/
theorem copy_assignment_duplicates_prefix :
    (copyAssignF (fun _ => false) (⟨⟨4⟩, [1], 1⟩ : Vector Nat) ⟨⟨2⟩, [2, 3], 2⟩).1 = true ∧
    (copyAssignF (fun _ => false) (⟨⟨4⟩, [1], 1⟩ : Vector Nat) ⟨⟨2⟩, [2, 3], 2⟩).2.elems
      = [2, 2] ∧
    (copyAssignF (fun _ => false) (⟨⟨4⟩, [1], 1⟩ : Vector Nat) ⟨⟨2⟩, [2, 3], 2⟩).2.elems
      ≠ (⟨⟨2⟩, [2, 3], 2⟩ : Vector Nat).elems ∧
    (copyAssignF (fun _ => false) (⟨⟨4⟩, [1], 1⟩ : Vector Nat) ⟨⟨2⟩, [2, 3], 2⟩).2.Size
      = (⟨⟨2⟩, [2, 3], 2⟩ : Vector Nat).Size := by
  decide

/-- C7: `Resize(n)` always ends with `Size() = n` and capacity at least
`n`; growth appends `n - size` value-initialized elements after the
untouched originals, shrinking keeps exactly the first `n` elements, and
`n = Size()` is a no-op; concretely, `Resize(5)` on `[1, 2]` yields
`[1, 2, 0, 0, 0]` of size 5. -/
theorem resize_cases :
    (∀ (α : Type) (dflt : α) (v : Vector α) (n : Nat), v.WF →
       (Resize dflt n v).Size = n ∧
       n ≤ (Resize dflt n v).Capacity ∧
       (v.Size < n →
          (Resize dflt n v).elems = v.elems ++ List.replicate (n - v.Size) dflt) ∧
       (n < v.Size → (Resize dflt n v).elems = v.elems.take n) ∧
       (n = v.Size → Resize dflt n v = v)) ∧
    ((Resize 0 5 (⟨⟨2⟩, [1, 2], 2⟩ : Vector Nat)).elems = [1, 2, 0, 0, 0] ∧
     (Resize 0 5 (⟨⟨2⟩, [1, 2], 2⟩ : Vector Nat)).Size = 5) := by
  refine ⟨?_, by decide, by decide⟩
  intro α dflt v n hwf
  obtain ⟨h1, h2⟩ := hwf
  have htake : v.elems.take v.size = v.elems := by
    rw [← h1]
    exact List.take_length v.elems
  by_cases hn : n = v.size
  · subst hn
    refine ⟨by simp [Resize, Size], ?_, ?_, ?_, fun _ => by simp [Resize]⟩
    · simp only [Resize, if_pos rfl, Capacity]
      exact h2
    · intro h
      exact absurd h (by simp only [Size]; omega)
    · intro h
      exact absurd h (by simp only [Size]; omega)
  · by_cases hgt : n > v.size
    · have hres : Resize dflt n v =
          ⟨(Reserve n v).data,
           (Reserve n v).elems ++ List.replicate (n - v.size) dflt, n⟩ := by
        simp [Resize, hn, hgt]
      rw [hres]
      refine ⟨rfl, ?_, ?_, ?_, ?_⟩
      · simp only [Capacity, Reserve]
        by_cases hc : n ≤ v.data.capacity
        · rw [if_pos hc]
          exact hc
        · rw [if_neg hc]
      · intro _
        simp only [Size, Reserve]
        by_cases hc : n ≤ v.data.capacity
        · rw [if_pos hc]
        · rw [if_neg hc]
          rw [htake]
      · intro h
        exact absurd h (by simp only [Size]; omega)
      · intro h
        exact absurd h (fun he => hn he)
    · have hlt : n < v.size := by omega
      have hngt : ¬ n > v.size := by omega
      have hres : Resize dflt n v = ⟨v.data, v.elems.take n, n⟩ := by
        simp [Resize, hn, hngt]
      rw [hres]
      refine ⟨rfl, ?_, ?_, fun _ => rfl, ?_⟩
      · simp only [Capacity]
        omega
      · intro h
        exact absurd h (by simp only [Size]; omega)
      · intro h
        exact absurd h (fun he => hn he)

/-- Witness for C7: the concrete `Resize(5)` scenario, obtained from the
universally quantified part at `[1, 2]`. -/
theorem resize_cases_witness :
    (Resize 0 5 (⟨⟨2⟩, [1, 2], 2⟩ : Vector Nat)).Size = 5 :=
  (resize_cases.1 Nat 0 ⟨⟨2⟩, [1, 2], 2⟩ 5 (by decide)).1

/-- C8: for every well-formed container, valid position `p ≤ Size()` and
value, inserting at `p` and then erasing at the position returned by the
insertion restores the original element sequence and size. -/
theorem insert_erase_roundtrip (α : Type) (v : Vector α) (p : Nat) (x : α)
    (hwf : v.WF) (hp : p ≤ v.Size) :
    (Erase (Insert v p x).1 (Insert v p x).2).1.elems = v.elems ∧
    (Erase (Insert v p x).1 (Insert v p x).2).1.Size = v.Size := by
  obtain ⟨h1, _⟩ := hwf
  have htake : v.elems.take v.size = v.elems := by
    rw [← h1]
    exact List.take_length v.elems
  have hdrop : v.elems.drop v.size = [] := by
    rw [← h1]
    exact List.drop_length v.elems
  have hins1 : (Vector.Insert v p x).1.elems = v.elems.take p ++ x :: v.elems.drop p := by
    simp only [Vector.Insert, Emplace, EmplaceBack]
    by_cases hpe : p = v.size
    · rw [if_pos hpe]
      by_cases hcap : v.size = v.data.capacity
      · rw [if_pos hcap, hpe, htake, hdrop]
      · rw [if_neg hcap, hpe, htake, hdrop]
    · rw [if_neg hpe]
      by_cases hcap : v.size = v.data.capacity
      · rw [if_pos hcap]
      · rw [if_neg hcap]
  have hins2 : (Vector.Insert v p x).2 = p := by
    simp only [Vector.Insert, Emplace, EmplaceBack]
    by_cases hpe : p = v.size
    · rw [if_pos hpe]
      by_cases hcap : v.size = v.data.capacity
      · rw [if_pos hcap, hpe]
      · rw [if_neg hcap, hpe]
    · rw [if_neg hpe]
      by_cases hcap : v.size = v.data.capacity
      · rw [if_pos hcap]
      · rw [if_neg hcap]
  have hins3 : (Vector.Insert v p x).1.size = v.size + 1 := by
    simp only [Vector.Insert, Emplace, EmplaceBack]
    by_cases hpe : p = v.size
    · rw [if_pos hpe]
      by_cases hcap : v.size = v.data.capacity
      · rw [if_pos hcap]
      · rw [if_neg hcap]
    · rw [if_neg hpe]
      by_cases hcap : v.size = v.data.capacity
      · rw [if_pos hcap]
      · rw [if_neg hcap]
  constructor
  · simp only [Erase]
    rw [hins2, hins1]
    exact take_append_cons_drop v.elems x p (by rw [h1]; exact hp)
  · simp only [Erase, Size]
    rw [hins3]
    omega

/-- Witness for C8: inserting `99` at position 1 of `[10, 20, 30]` and
erasing at the returned position restores `[10, 20, 30]`. -/
theorem insert_erase_roundtrip_witness :
    (Erase (Insert (⟨⟨3⟩, [10, 20, 30], 3⟩ : Vector Nat) 1 99).1
           (Insert (⟨⟨3⟩, [10, 20, 30], 3⟩ : Vector Nat) 1 99).2).1.elems
      = [10, 20, 30] :=
  (insert_erase_roundtrip Nat ⟨⟨3⟩, [10, 20, 30], 3⟩ 1 99 (by decide) (by decide)).1

/-- C9: `Reserve(n)` with `n ≤ Capacity()` changes nothing at all; with
`n > Capacity()` it keeps the size and the element sequence and sets the
capacity to exactly `n`. -/
theorem reserve_frame_effect (α : Type) (v : Vector α) (n : Nat) (hwf : v.WF) :
    (n ≤ v.Capacity → Reserve n v = v) ∧
    (v.Capacity < n →
       (Reserve n v).Size = v.Size ∧
       (Reserve n v).elems = v.elems ∧
       (Reserve n v).Capacity = n) := by
  obtain ⟨h1, _⟩ := hwf
  have htake : v.elems.take v.size = v.elems := by
    rw [← h1]
    exact List.take_length v.elems
  constructor
  · intro h
    simp only [Capacity] at h
    simp [Reserve, h]
  · intro h
    simp only [Capacity] at h
    have hn : ¬ n ≤ v.data.capacity := by omega
    refine ⟨?_, ?_, ?_⟩
    · simp [Reserve, hn, Size]
    · simp [Reserve, hn, htake]
    · simp [Reserve, hn, Capacity]

/-- Witness for C9: reserving 5 slots on a one-element container of
capacity 1 gives capacity exactly 5. -/
theorem reserve_frame_effect_witness :
    (Reserve 5 (⟨⟨1⟩, [4], 1⟩ : Vector Nat)).Capacity = 5 :=
  ((reserve_frame_effect Nat ⟨⟨1⟩, [4], 1⟩ 5 (by decide)).2 (by decide)).2.2

/-- C10: `Erase` at a valid position `p` returns an iterator at the same
offset `p`; after the call that offset holds the element that previously
followed the erased one (and is past the end — both sides are `none` —
exactly when the last element was erased); when the last element was
erased the returned offset equals the new size, i.e. the end position. -/
theorem erase_result_position (α : Type) (v : Vector α) (p : Nat)
    (hwf : v.WF) (hp : p < v.Size) :
    (Erase v p).2 = p ∧
    (Erase v p).1.Size = v.Size - 1 ∧
    ((Erase v p).1.elems)[p]? = v.elems[p + 1]? ∧
    (p + 1 = v.Size → (Erase v p).2 = (Erase v p).1.Size) := by
  obtain ⟨h1, _⟩ := hwf
  have hp' : p < v.elems.length := by rw [h1]; exact hp
  refine ⟨rfl, rfl, ?_, ?_⟩
  · simp only [Erase]
    rw [List.getElem?_append_right (by simp [List.length_take])]
    simp [List.length_take, Nat.min_eq_left (Nat.le_of_lt hp'), List.getElem?_drop]
  · intro h
    simp only [Size] at h
    simp only [Erase, Size]
    omega

/-- Witness for C10: erasing position 0 of `[1, 2, 3]` leaves the old
second element at offset 0. -/
theorem erase_result_position_witness :
    ((Erase (⟨⟨3⟩, [1, 2, 3], 3⟩ : Vector Nat) 0).1.elems)[0]?
      = ([1, 2, 3] : List Nat)[0 + 1]? :=
  (erase_result_position Nat ⟨⟨3⟩, [1, 2, 3], 3⟩ 0 (by decide) (by decide)).2.2.1

/-- Failure behaviour of `PushBack` for a copy-relocating element type:
on failure the state is unchanged and neither destruction of the old
elements nor the buffer swap happened; a failing construction of the new
element during growth precedes any relocation copy; the new element is
always constructed before any relocation copy. -/
theorem pushBackCopyF_failure_spec (α : Type) (copyFail : α → Bool)
    (v : Vector α) (value : α) :
    ((PushBackCopyF copyFail v value).2.1 = false →
       (PushBackCopyF copyFail v value).2.2 = v ∧
       (PushBackCopyF copyFail v value).2.2.Size = v.Size ∧
       (PushBackCopyF copyFail v value).2.2.Capacity = v.Capacity ∧
       (PushBackCopyF copyFail v value).2.2.elems = v.elems ∧
       Ev.destroyOld ∉ (PushBackCopyF copyFail v value).1 ∧
       Ev.swapBuffers ∉ (PushBackCopyF copyFail v value).1) ∧
    (v.Size = v.Capacity → copyFail value = true →
       ∀ i, Ev.copyOld i ∉ (PushBackCopyF copyFail v value).1) ∧
    (∀ (i j : Nat), ((PushBackCopyF copyFail v value).1)[j]? = some (Ev.copyOld i) →
       ∃ jc : Nat, jc < j ∧
         ((PushBackCopyF copyFail v value).1)[jc]? = some Ev.constructNew) := by
  by_cases hcap : v.size = v.data.capacity
  · by_cases hv : copyFail value = true
    · have hres : PushBackCopyF copyFail v value =
          ([Ev.allocNew (NewExpendedMem v).capacity], false, v) := by
        simp only [PushBackCopyF]
        rw [if_pos hcap, if_pos hv]
      rw [hres]
      refine ⟨fun _ => ⟨rfl, rfl, rfl, rfl, by simp, by simp⟩, fun _ _ i => by simp, ?_⟩
      intro i j hj
      rcases j with _ | j
      · simp at hj
      · simp at hj
    · rcases hfind : (v.elems.take v.size).findIdx? copyFail with _ | k
      · have hres : PushBackCopyF copyFail v value =
            (Ev.allocNew (NewExpendedMem v).capacity :: Ev.constructNew ::
               ((List.range v.size).map Ev.copyOld ++ [Ev.destroyOld, Ev.swapBuffers]),
             true, ⟨NewExpendedMem v, v.elems.take v.size ++ [value], v.size + 1⟩) := by
          simp only [PushBackCopyF]
          rw [if_pos hcap, if_neg hv, hfind]
        rw [hres]
        refine ⟨fun h => absurd h (by simp), fun _ hvt _ => absurd hvt hv, ?_⟩
        intro i j hj
        rcases j with _ | _ | j
        · simp at hj
        · simp at hj
        · exact ⟨1, by omega, by simp⟩
      · have hres : PushBackCopyF copyFail v value =
            (Ev.allocNew (NewExpendedMem v).capacity :: Ev.constructNew ::
               (List.range k).map Ev.copyOld, false, v) := by
          simp only [PushBackCopyF]
          rw [if_pos hcap, if_neg hv, hfind]
        rw [hres]
        refine ⟨fun _ => ⟨rfl, rfl, rfl, rfl, by simp, by simp⟩,
                fun _ hvt _ => absurd hvt hv, ?_⟩
        intro i j hj
        rcases j with _ | _ | j
        · simp at hj
        · simp at hj
        · exact ⟨1, by omega, by simp⟩
  · by_cases hv : copyFail value = true
    · have hres : PushBackCopyF copyFail v value = ([], false, v) := by
        simp only [PushBackCopyF]
        rw [if_neg hcap, if_pos hv]
      rw [hres]
      refine ⟨fun _ => ⟨rfl, rfl, rfl, rfl, by simp, by simp⟩,
              fun hsc _ _ => absurd hsc hcap, ?_⟩
      intro i j hj
      simp at hj
    · have hres : PushBackCopyF copyFail v value =
          ([Ev.constructNew], true, ⟨v.data, v.elems ++ [value], v.size + 1⟩) := by
        simp only [PushBackCopyF]
        rw [if_neg hcap, if_neg hv]
      rw [hres]
      refine ⟨fun h => absurd h (by simp), fun hsc _ _ => absurd hsc hcap, ?_⟩
      intro i j hj
      rcases j with _ | j
      · simp at hj
      · simp at hj

/-- Failure behaviour of `EmplaceBack` for a copy-relocating element
type: same guarantees as `pushBackCopyF_failure_spec`, with the
construction of the new element governed by its own failure oracle. -/
theorem emplaceBackCopyF_failure_spec (α : Type) (constructFails : Bool)
    (copyFail : α → Bool) (v : Vector α) (value : α) :
    ((EmplaceBackCopyF constructFails copyFail v value).2.1 = false →
       (EmplaceBackCopyF constructFails copyFail v value).2.2 = v ∧
       Ev.destroyOld ∉ (EmplaceBackCopyF constructFails copyFail v value).1 ∧
       Ev.swapBuffers ∉ (EmplaceBackCopyF constructFails copyFail v value).1) ∧
    (v.Size = v.Capacity → constructFails = true →
       ∀ i, Ev.copyOld i ∉ (EmplaceBackCopyF constructFails copyFail v value).1) ∧
    (∀ (i j : Nat),
       ((EmplaceBackCopyF constructFails copyFail v value).1)[j]? = some (Ev.copyOld i) →
       ∃ jc : Nat, jc < j ∧
         ((EmplaceBackCopyF constructFails copyFail v value).1)[jc]? = some Ev.constructNew) := by
  by_cases hcap : v.size = v.data.capacity
  · by_cases hc : constructFails = true
    · have hres : EmplaceBackCopyF constructFails copyFail v value =
          ([Ev.allocNew (NewExpendedMem v).capacity], false, v) := by
        simp only [EmplaceBackCopyF]
        rw [if_pos hcap, if_pos hc]
      rw [hres]
      refine ⟨fun _ => ⟨rfl, by simp, by simp⟩, fun _ _ i => by simp, ?_⟩
      intro i j hj
      rcases j with _ | j
      · simp at hj
      · simp at hj
    · rcases hfind : (v.elems.take v.size).findIdx? copyFail with _ | k
      · have hres : EmplaceBackCopyF constructFails copyFail v value =
            (Ev.allocNew (NewExpendedMem v).capacity :: Ev.constructNew ::
               ((List.range v.size).map Ev.copyOld ++ [Ev.destroyOld, Ev.swapBuffers]),
             true, ⟨NewExpendedMem v, v.elems.take v.size ++ [value], v.size + 1⟩) := by
          simp only [EmplaceBackCopyF]
          rw [if_pos hcap, if_neg hc, hfind]
        rw [hres]
        refine ⟨fun h => absurd h (by simp), fun _ hct _ => absurd hct hc, ?_⟩
        intro i j hj
        rcases j with _ | _ | j
        · simp at hj
        · simp at hj
        · exact ⟨1, by omega, by simp⟩
      · have hres : EmplaceBackCopyF constructFails copyFail v value =
            (Ev.allocNew (NewExpendedMem v).capacity :: Ev.constructNew ::
               (List.range k).map Ev.copyOld, false, v) := by
          simp only [EmplaceBackCopyF]
          rw [if_pos hcap, if_neg hc, hfind]
        rw [hres]
        refine ⟨fun _ => ⟨rfl, by simp, by simp⟩,
                fun _ hct _ => absurd hct hc, ?_⟩
        intro i j hj
        rcases j with _ | _ | j
        · simp at hj
        · simp at hj
        · exact ⟨1, by omega, by simp⟩
  · by_cases hc : constructFails = true
    · have hres : EmplaceBackCopyF constructFails copyFail v value = ([], false, v) := by
        simp only [EmplaceBackCopyF]
        rw [if_neg hcap, if_pos hc]
      rw [hres]
      refine ⟨fun _ => ⟨rfl, by simp, by simp⟩,
              fun hsc _ _ => absurd hsc hcap, ?_⟩
      intro i j hj
      simp at hj
    · have hres : EmplaceBackCopyF constructFails copyFail v value =
          ([Ev.constructNew], true, ⟨v.data, v.elems ++ [value], v.size + 1⟩) := by
        simp only [EmplaceBackCopyF]
        rw [if_neg hcap, if_neg hc]
      rw [hres]
      refine ⟨fun h => absurd h (by simp), fun hsc _ _ => absurd hsc hcap, ?_⟩
      intro i j hj
      rcases j with _ | j
      · simp at hj
      · simp at hj

/-- C1: for a growth-triggering `PushBack`/`EmplaceBack` on an element
type whose relocation uses copying, whenever the operation fails — the
construction of the new element throws, or some relocation copy throws —
the container's size, capacity and element contents are exactly as
before the call and neither the destruction of the old elements nor the
buffer swap has happened; when the new element's construction throws
during growth no relocation copy has been made at all; and in every
trace the new element is constructed into the new buffer's next-free
slot strictly before any relocation copy. -/
theorem pushback_growth_copy_strong_safety (α : Type) (copyFail : α → Bool)
    (v : Vector α) (value : α) (constructFails : Bool) :
    ((PushBackCopyF copyFail v value).2.1 = false →
       (PushBackCopyF copyFail v value).2.2 = v ∧
       (PushBackCopyF copyFail v value).2.2.Size = v.Size ∧
       (PushBackCopyF copyFail v value).2.2.Capacity = v.Capacity ∧
       (PushBackCopyF copyFail v value).2.2.elems = v.elems ∧
       Ev.destroyOld ∉ (PushBackCopyF copyFail v value).1 ∧
       Ev.swapBuffers ∉ (PushBackCopyF copyFail v value).1) ∧
    (v.Size = v.Capacity → copyFail value = true →
       ∀ i, Ev.copyOld i ∉ (PushBackCopyF copyFail v value).1) ∧
    (∀ (i j : Nat), ((PushBackCopyF copyFail v value).1)[j]? = some (Ev.copyOld i) →
       ∃ jc : Nat, jc < j ∧
         ((PushBackCopyF copyFail v value).1)[jc]? = some Ev.constructNew) ∧
    ((EmplaceBackCopyF constructFails copyFail v value).2.1 = false →
       (EmplaceBackCopyF constructFails copyFail v value).2.2 = v ∧
       Ev.destroyOld ∉ (EmplaceBackCopyF constructFails copyFail v value).1 ∧
       Ev.swapBuffers ∉ (EmplaceBackCopyF constructFails copyFail v value).1) ∧
    (v.Size = v.Capacity → constructFails = true →
       ∀ i, Ev.copyOld i ∉ (EmplaceBackCopyF constructFails copyFail v value).1) ∧
    (∀ (i j : Nat),
       ((EmplaceBackCopyF constructFails copyFail v value).1)[j]? = some (Ev.copyOld i) →
       ∃ jc : Nat, jc < j ∧
         ((EmplaceBackCopyF constructFails copyFail v value).1)[jc]? = some Ev.constructNew) := by
  obtain ⟨p1, p2, p3⟩ := pushBackCopyF_failure_spec α copyFail v value
  obtain ⟨e1, e2, e3⟩ := emplaceBackCopyF_failure_spec α constructFails copyFail v value
  exact ⟨p1, p2, p3, e1, e2, e3⟩

/-- Witness for C1: a full one-element container of capacity 1, pushing
a value whose copy constructor throws; the container is unchanged. -/
theorem pushback_growth_copy_strong_safety_witness :
    (PushBackCopyF (fun a => decide (a = 7)) (⟨⟨1⟩, [5], 1⟩ : Vector Nat) 7).2.2
      = (⟨⟨1⟩, [5], 1⟩ : Vector Nat) :=
  ((pushback_growth_copy_strong_safety Nat (fun a => decide (a = 7))
      ⟨⟨1⟩, [5], 1⟩ 7 true).1 (by decide)).1

end AdvVector
